import Mathlib

/-!
Shallow embedding of profanity's `src/xmpp/bookmark.c`: the bookmark Store
(a GHashTable from room JID to `Bookmark`), the autocomplete Match Index,
the encoder `_send_bookmarks` and the decoder `_bookmark_result_id_handler`,
together with the public operations `bookmark_add`, `bookmark_update`,
`bookmark_remove` and `bookmark_request`.

Stateful C code is modelled by explicit state passing on `BState`; external
side effects (`muc_confserver_add`, `sv_ev_bookmark_autojoin`) are recorded
as traces.  The undefined behaviour of `strcmp(NULL, _)` in the minimize
decoding is modelled by an `Option`, `none` marking the crash.
-/

set_option autoImplicit false

namespace Profanity

/-- The `Bookmark` struct of `src/xmpp/bookmark.h`: nullable C strings become
`Option String`, the gboolean `autojoin` a `Bool`, and the int
`ext_gajim_minimize` a `Nat` (the code only ever stores 0, 1 or 2:
0 = unset, 1 = true, 2 = false). -/
structure Bookmark where
  barejid : String
  nick : Option String
  password : Option String
  name : Option String
  autojoin : Bool
  ext_gajim_minimize : Nat
deriving DecidableEq, Repr

/-- The bookmarks GHashTable, modelled as an association list from key
(the strdup'd jid) to `Bookmark`. -/
abbrev Store := List (String × Bookmark)

/-- Model of `g_hash_table_lookup`: first entry with the given key. -/
def storeLookup : Store → String → Option Bookmark
  | [], _ => none
  | (k', b) :: rest, k => if k' = k then some b else storeLookup rest k

/-- Model of `g_hash_table_contains`. -/
def storeContains (s : Store) (k : String) : Bool :=
  (storeLookup s k).isSome

/-- Model of `g_hash_table_insert`: replaces the value when the key is
present, otherwise adds a new entry. -/
def storeInsert : Store → String → Bookmark → Store
  | [], k, b => [(k, b)]
  | (k', b') :: rest, k, b =>
      if k' = k then (k', b) :: rest else (k', b') :: storeInsert rest k b

/-- Model of `g_hash_table_remove`. -/
def storeRemove : Store → String → Store
  | [], _ => []
  | (k', b') :: rest, k =>
      if k' = k then storeRemove rest k else (k', b') :: storeRemove rest k

/-- The key set of the hash table. -/
def storeKeys (s : Store) : List String :=
  s.map Prod.fst

/-- Modelled from the spec: the Match Index (spec 4.2) is a prefix-search
structure over the set of room addresses; `src/tools/autocomplete.c` is not
part of the excerpt, so the index is modelled as the list of its addresses.
`autocomplete_add` adds an address to the set. -/
def acAdd (ac : List String) (s : String) : List String :=
  if s ∈ ac then ac else ac ++ [s]

/-- Modelled from the spec: `autocomplete_remove` removes an address from
the Match Index. -/
def acRemove (ac : List String) (s : String) : List String :=
  ac.filter (fun x => x ≠ s)

/-- Modelled from the spec: the external Identifier Parser (spec 2, 6)
decomposes a room address into an optional local-part — the text before the
at-sign, absent when the address has none. -/
def jid_localpart (jid : String) : Option String :=
  if jid.data.contains '@' then some ⟨jid.data.takeWhile (fun c => c ≠ '@')⟩ else none

/-- Modelled from the spec: the domain-part of a room address — the text
after the at-sign, or the whole address when it has no at-sign. -/
def jid_domainpart (jid : String) : Option String :=
  if jid.data.contains '@' then some ⟨((jid.data.dropWhile (fun c => c ≠ '@')).drop 1)⟩
  else some jid

/-- The mutable module state: the `bookmarks` hash table and the
`bookmark_ac` autocomplete. -/
structure BState where
  bookmarks : Store
  bookmark_ac : List String
deriving DecidableEq, Repr

/-- An XML stanza as used through the strophe API: element name, optional
namespace, attribute list, text content (`none` when the element has no text
child, in which case `xmpp_stanza_get_text` returns NULL) and child
elements. -/
inductive Stanza where
  | mk (name : String) (ns : Option String) (attrs : List (String × String))
       (text : Option String) (children : List Stanza)

def Stanza.name : Stanza → String
  | .mk n _ _ _ _ => n

def Stanza.ns : Stanza → Option String
  | .mk _ n _ _ _ => n

def Stanza.attrs : Stanza → List (String × String)
  | .mk _ _ a _ _ => a

def Stanza.text : Stanza → Option String
  | .mk _ _ _ t _ => t

def Stanza.children : Stanza → List Stanza
  | .mk _ _ _ _ c => c

/-- Attribute lookup, first match wins. -/
def attrLookup : List (String × String) → String → Option String
  | [], _ => none
  | (k', v) :: rest, k => if k' = k then some v else attrLookup rest k

/-- Model of `xmpp_stanza_get_attribute`. -/
def get_attribute (s : Stanza) (k : String) : Option String :=
  attrLookup s.attrs k

/-- First child with the given element name. -/
def findChildNamed : List Stanza → String → Option Stanza
  | [], _ => none
  | c :: cs, nm => if c.name = nm then some c else findChildNamed cs nm

/-- First child with the given element name and namespace. -/
def findChildNamedNs : List Stanza → String → String → Option Stanza
  | [], _, _ => none
  | c :: cs, nm, ns =>
      if c.name = nm ∧ c.ns = some ns then some c else findChildNamedNs cs nm ns

/-- Model of `xmpp_stanza_get_child_by_name`. -/
def get_child_by_name (s : Stanza) (nm : String) : Option Stanza :=
  findChildNamed s.children nm

/-- Model of `xmpp_stanza_get_child_by_name_and_ns`. -/
def get_child_by_name_and_ns (s : Stanza) (nm ns : String) : Option Stanza :=
  findChildNamedNs s.children nm ns

/-- The Gajim bookmark extension namespace `STANZA_NS_EXT_GAJIM_BOOKMARKS`. -/
def STANZA_NS_EXT_GAJIM_BOOKMARKS : String := "xmpp:gajim.org/bookmarks"

/-! ## Session Coordinator operations -/

/-- Result of `bookmark_add`: the returned gboolean, the new module state,
and the trace of `muc_confserver_add` calls performed. -/
structure AddResult where
  res : Bool
  state : BState
  confserverAdds : List String
deriving DecidableEq, Repr

/-- Model of `bookmark_add` (bookmark.c:119-164): registers the jid's domain-part
with the conference-server registry, returns FALSE if the jid is already
bookmarked, otherwise builds the record, inserts it into the hash table and
the autocomplete, and returns TRUE.  (The `_send_bookmarks` push is the
encoder below, applied to the resulting store.) -/
def bookmark_add (st : BState) (jid : String)
    (nick password autojoin_str name : Option String) : AddResult :=
  let confAdds := match jid_domainpart jid with
    | some d => [d]
    | none => []
  if storeContains st.bookmarks jid then
    ⟨false, st, confAdds⟩
  else
    let b : Bookmark :=
      { barejid := jid, nick := nick, password := password, name := name,
        autojoin := autojoin_str = some "on", ext_gajim_minimize := 0 }
    ⟨true,
     { bookmarks := storeInsert st.bookmarks jid b,
       bookmark_ac := acAdd st.bookmark_ac jid },
     confAdds⟩

/-- Model of `bookmark_update` (bookmark.c:176-208): FALSE when the jid is not
bookmarked; otherwise each non-NULL argument replaces the corresponding
field (`autojoin_str` only for the exact strings "on"/"off") and the call
returns TRUE. -/
def bookmark_update (st : BState) (jid : String)
    (nick password autojoin_str name : Option String) : Bool × BState :=
  match storeLookup st.bookmarks jid with
  | none => (false, st)
  | some b =>
    let b' : Bookmark :=
      { barejid := b.barejid
        nick := match nick with
          | some n => some n
          | none => b.nick
        password := match password with
          | some p => some p
          | none => b.password
        name := match name with
          | some n => some n
          | none => b.name
        autojoin := match autojoin_str with
          | some a => if a = "on" then true else if a = "off" then false else b.autojoin
          | none => b.autojoin
        ext_gajim_minimize := b.ext_gajim_minimize }
    (true, { st with bookmarks := storeInsert st.bookmarks jid b' })

/-- Model of `bookmark_remove` (bookmark.c:253-269). -/
def bookmark_remove (st : BState) (jid : String) : Bool × BState :=
  match storeLookup st.bookmarks jid with
  | none => (false, st)
  | some _ =>
      (true, { bookmarks := storeRemove st.bookmarks jid,
               bookmark_ac := acRemove st.bookmark_ac jid })

/-- Model of `bookmark_request` (bookmark.c:85-106): destroys the hash table and the
autocomplete and creates fresh empty ones (the outbound fetch IQ itself is
transport, not modelled). -/
def bookmark_request (_st : BState) : BState :=
  { bookmarks := [], bookmark_ac := [] }

/-! ## Encoder: `_send_bookmarks` -/

/-- One `<conference>` child of the storage element, as `_send_bookmarks`
(bookmark.c:470-537) builds it for one bookmark: jid attribute; name
attribute from the record's name, else derived from the jid's local-part,
else omitted; autojoin attribute "true"/"false"; nick and password text
children when present; minimize extension child when the tri-state flag is
1 or 2. -/
def encodeConference (b : Bookmark) : Stanza :=
  Stanza.mk "conference" none
    ([("jid", b.barejid)] ++
     (match b.name with
      | some n => [("name", n)]
      | none =>
        match jid_localpart b.barejid with
        | some l => [("name", l)]
        | none => []) ++
     [("autojoin", if b.autojoin then "true" else "false")])
    none
    ((match b.nick with
      | some n => [Stanza.mk "nick" none [] (some n) []]
      | none => []) ++
     (match b.password with
      | some p => [Stanza.mk "password" none [] (some p) []]
      | none => []) ++
     (if b.ext_gajim_minimize = 1 ∨ b.ext_gajim_minimize = 2 then
        [Stanza.mk "minimize" (some STANZA_NS_EXT_GAJIM_BOOKMARKS) []
          (some (if b.ext_gajim_minimize = 1 then "true" else "false")) []]
      else []))

/-- The `<storage xmlns="storage:bookmarks">` element with one conference
child per store entry (in `g_hash_table_get_values` order). -/
def encodeStorage (s : Store) : Stanza :=
  Stanza.mk "storage" (some "storage:bookmarks") [] none
    (s.map (fun kv => encodeConference kv.2))

/-- The full outbound IQ built by `_send_bookmarks`:
`<iq type="set"><query xmlns="jabber:iq:private"><storage .../></query></iq>`. -/
def encodeIq (s : Store) : Stanza :=
  Stanza.mk "iq" none [("type", "set")] none
    [Stanza.mk "query" (some "jabber:iq:private") [] none [encodeStorage s]]

/-! ## Decoder: `_bookmark_result_id_handler` -/

/-- The autojoin attribute test (bookmark.c:390-394): true only for the
literal strings "1" and "true"; absent or anything else is FALSE. -/
def parseAutojoinAttr : Option String → Bool
  | none => false
  | some v => if v = "1" then true else if v = "true" then true else false

/-- The minimize decoding (bookmark.c:396-406).  `none` marks the
`strcmp(NULL, "true")` undefined behaviour reached when the extension
element is present but has no text content. -/
def parseMinimizeChild (child : Stanza) : Option Nat :=
  match get_child_by_name_and_ns child "minimize" STANZA_NS_EXT_GAJIM_BOOKMARKS with
  | none => some 0
  | some st =>
      match st.text with
      | none => none
      | some t => some (if t = "true" then 1 else if t = "false" then 2 else 0)

/-- Outcome of the per-child loop body for one storage child. -/
inductive EntryResult where
  | skip
  | crash
  | ok (b : Bookmark)
deriving DecidableEq, Repr

/-- One iteration of the decode loop (bookmark.c:362-427) on one storage
child: skip non-conference children and conference children without a jid
attribute, otherwise build the record from the attributes and children. -/
def parseEntry (child : Stanza) : EntryResult :=
  if child.name ≠ "conference" then .skip
  else
    match get_attribute child "jid" with
    | none => .skip
    | some barejid =>
      match parseMinimizeChild child with
      | none => .crash
      | some minimize =>
        .ok { barejid := barejid
              nick := (get_child_by_name child "nick").bind Stanza.text
              password := (get_child_by_name child "password").bind Stanza.text
              name := get_attribute child "name"
              autojoin := parseAutojoinAttr (get_attribute child "autojoin")
              ext_gajim_minimize := minimize }

/-- Projection of `parseEntry` to the successfully decoded record. -/
def parseOk (child : Stanza) : Option Bookmark :=
  match parseEntry child with
  | .ok b => some b
  | _ => none

/-- Result of running the decode handler: the final state plus, as traces,
the decoded records (in order), the `sv_ev_bookmark_autojoin` notifications
and the `muc_confserver_add` registrations. -/
structure DecodeTrace where
  state : BState
  decoded : List Bookmark
  autojoinEvents : List Bookmark
  confserverAdds : List String
deriving DecidableEq, Repr

/-- The decode loop over the storage children; `none` when an iteration
reaches the minimize null dereference. -/
def runEntries : List Stanza → BState → Option DecodeTrace
  | [], st => some ⟨st, [], [], []⟩
  | c :: cs, st =>
    match parseEntry c with
    | .skip => runEntries cs st
    | .crash => none
    | .ok b =>
      let st' : BState :=
        { bookmarks := storeInsert st.bookmarks b.barejid b,
          bookmark_ac := acAdd st.bookmark_ac b.barejid }
      match runEntries cs st' with
      | none => none
      | some tr =>
          some ⟨tr.state, b :: tr.decoded,
                (if b.autojoin then [b] else []) ++ tr.autojoinEvents,
                (match jid_domainpart b.barejid with
                 | some d => [d]
                 | none => []) ++ tr.confserverAdds⟩

/-- Model of `_bookmark_result_id_handler` (bookmark.c:340-431): ignore stanzas that
are not an `<iq>` or lack the `<query>`/`<storage>` nesting, then run the
per-child loop.  The handler never clears the existing table: it only
inserts. -/
def bookmark_result_handler (st : BState) (stanza : Stanza) : Option DecodeTrace :=
  if stanza.name ≠ "iq" then some ⟨st, [], [], []⟩
  else
    match get_child_by_name stanza "query" with
    | none => some ⟨st, [], [], []⟩
    | some query =>
      match get_child_by_name query "storage" with
      | none => some ⟨st, [], [], []⟩
      | some storage => runEntries storage.children st

/-! ## Derived notions used by the verification -/

/-- Arguments of one `bookmark_add` call. -/
structure AddArgs where
  jid : String
  nick : Option String
  password : Option String
  autojoin_str : Option String
  name : Option String

/-- A sequence of `bookmark_add` calls, keeping only the state. -/
def runAdds : BState → List AddArgs → BState
  | st, [] => st
  | st, a :: rest =>
      runAdds (bookmark_add st a.jid a.nick a.password a.autojoin_str a.name).state rest

/-- The record `bookmark_add` builds for a fresh jid. -/
def mkAddRecord (jid : String) (nick password autojoin_str name : Option String) : Bookmark :=
  { barejid := jid, nick := nick, password := password, name := name,
    autojoin := autojoin_str = some "on", ext_gajim_minimize := 0 }

/-- No two store entries share an address. -/
def nodupKeys (st : BState) : Prop :=
  (storeKeys st.bookmarks).Nodup

/-- One operation on the module state, for invariant claims. -/
inductive BOp where
  | request
  | add (jid : String) (nick password autojoin_str name : Option String)
  | remove (jid : String)
  | decode (stanza : Stanza)

/-- Apply one operation; `none` when a decode reaches the minimize crash. -/
def applyOp (st : BState) : BOp → Option BState
  | .request => some (bookmark_request st)
  | .add jid n p a nm => some (bookmark_add st jid n p a nm).state
  | .remove jid => some (bookmark_remove st jid).2
  | .decode stz => (bookmark_result_handler st stz).map DecodeTrace.state

/-- Apply a sequence of operations. -/
def runOps : BState → List BOp → Option BState
  | st, [] => some st
  | st, op :: ops =>
      match applyOp st op with
      | none => none
      | some st' => runOps st' ops

/-- The Match Index holds exactly the Store's keys. -/
def keysMatchIndexInv (st : BState) : Prop :=
  ∀ a, a ∈ storeKeys st.bookmarks ↔ a ∈ st.bookmark_ac

/-- How one encode/decode round trip rewrites a record: only the display
name changes, an absent name becoming the jid's local-part when the jid has
one. -/
def nameAfterRoundtrip (b : Bookmark) : Bookmark :=
  { b with name := match b.name with
      | some n => some n
      | none => jid_localpart b.barejid }

/-- The last record in a decoded list carrying the given address (the one
whose insertion wins in the hash table). -/
def lastDecodedWith : List Bookmark → String → Option Bookmark
  | [], _ => none
  | b :: rest, a =>
      match lastDecodedWith rest a with
      | some x => some x
      | none => if b.barejid = a then some b else none

/-! ## Concrete sample data used by the witness theorems -/

def sampleStoreC1 : Store :=
  [("room@conf.example",
    ⟨"room@conf.example", some "bob", some "pw", none, true, 1⟩),
   ("confonly", ⟨"confonly", none, none, none, false, 0⟩)]

def sampleRecC3 : Bookmark :=
  ⟨"room@conf.example", some "old", some "secret", some "Room", true, 2⟩

def sampleStateC3 : BState :=
  ⟨[("room@conf.example", sampleRecC3)], ["room@conf.example"]⟩

def sampleArgsC4 : List AddArgs :=
  [⟨"a@x", none, none, none, none⟩, ⟨"a@x", some "n", some "p", some "on", none⟩]

def sampleStateC4 : BState :=
  ⟨[("a@x", mkAddRecord "a@x" none none none none)], ["a@x"]⟩

def sampleIqC5 : Stanza :=
  Stanza.mk "iq" none [] none
    [Stanza.mk "query" none [] none
      [Stanza.mk "storage" none [] none
        [Stanza.mk "conference" none [("jid", "b@y"), ("autojoin", "1")] none []]]]

def sampleOpsC5 : List BOp :=
  [.request, .add "a@x" none none (some "on") none, .decode sampleIqC5,
   .remove "a@x"]

def sampleFinalC5 : BState :=
  ⟨[("b@y", ⟨"b@y", none, none, none, true, 0⟩)], ["b@y"]⟩

def sampleIqC6 : Stanza :=
  Stanza.mk "iq" none [] none
    [Stanza.mk "query" none [] none
      [Stanza.mk "storage" none [] none
        [Stanza.mk "conference" none [("jid", "new@conf")] none []]]]

def sampleOldC6 : Bookmark := ⟨"old@conf", none, none, none, false, 0⟩

def samplePreC6 : BState := ⟨[("old@conf", sampleOldC6)], ["old@conf"]⟩

def sampleTrC6 : DecodeTrace :=
  ⟨⟨[("new@conf", ⟨"new@conf", none, none, none, false, 0⟩)], ["new@conf"]⟩,
   [⟨"new@conf", none, none, none, false, 0⟩], [], ["conf"]⟩

def sampleEntriesC7 : List Stanza :=
  [Stanza.mk "conference" none [("autojoin", "true")] none [],
   Stanza.mk "url" none [] (some "ignored") [],
   Stanza.mk "conference" none [("jid", "good@conf")] none []]

def sampleConfC8 : Stanza :=
  Stanza.mk "conference" none [("jid", "r@c"), ("autojoin", "1")] none []

def sampleRecC8 : Bookmark := ⟨"r@c", none, none, none, true, 0⟩

def sampleStateC9 : BState :=
  ⟨[("room@conf", ⟨"room@conf", none, none, none, false, 0⟩)], ["room@conf"]⟩

def sampleMinC10 : Stanza :=
  Stanza.mk "minimize" (some STANZA_NS_EXT_GAJIM_BOOKMARKS) [] none []

def sampleConfC10 : Stanza :=
  Stanza.mk "conference" none [("jid", "r@c")] none [sampleMinC10]

/-! ## Helper lemmas -/

theorem storeLookup_insert (s : Store) (k : String) (b : Bookmark) (a : String) :
    storeLookup (storeInsert s k b) a = if k = a then some b else storeLookup s a := by
  induction s with
  | nil => simp [storeInsert, storeLookup]
  | cons kv rest ih =>
    obtain ⟨k', b'⟩ := kv
    by_cases h1 : k' = k
    · subst h1
      by_cases h : k' = a <;> simp [storeInsert, storeLookup, h]
    · by_cases h2 : k' = a
      · subst h2
        have hka : ¬ k = k' := fun hh => h1 hh.symm
        simp [storeInsert, storeLookup, h1, hka]
      · simp [storeInsert, storeLookup, h1, h2, ih]

theorem storeLookup_remove (s : Store) (k a : String) :
    storeLookup (storeRemove s k) a = if a = k then none else storeLookup s a := by
  induction s with
  | nil => simp [storeRemove, storeLookup]
  | cons kv rest ih =>
    obtain ⟨k', b'⟩ := kv
    by_cases h1 : k' = k
    · subst h1
      rw [storeRemove, if_pos rfl, ih]
      by_cases h2 : a = k'
      · simp [h2, storeLookup]
      · simp [storeLookup, h2, Ne.symm h2]
    · rw [storeRemove, if_neg h1]
      by_cases h2 : k' = a
      · have hak : ¬ a = k := fun hh => h1 (h2.trans hh)
        simp [storeLookup, h2, hak]
      · simp [storeLookup, h2, ih]

theorem storeLookup_eq_none_iff (s : Store) (k : String) :
    storeLookup s k = none ↔ k ∉ storeKeys s := by
  induction s with
  | nil => simp [storeLookup, storeKeys]
  | cons kv rest ih =>
    obtain ⟨k', b'⟩ := kv
    by_cases h : k' = k
    · subst h
      simp [storeLookup, storeKeys]
    · simp [storeLookup, storeKeys, h, Ne.symm h, ih]

theorem mem_storeKeys_iff (s : Store) (a : String) :
    a ∈ storeKeys s ↔ ¬ storeLookup s a = none := by
  rw [storeLookup_eq_none_iff]
  simp

theorem storeInsert_fresh (s : Store) (k : String) (b : Bookmark)
    (h : storeLookup s k = none) : storeInsert s k b = s ++ [(k, b)] := by
  induction s with
  | nil => simp [storeInsert]
  | cons kv rest ih =>
    obtain ⟨k', b'⟩ := kv
    simp only [storeLookup] at h
    by_cases h1 : k' = k
    · simp [h1] at h
    · rw [if_neg h1] at h
      simp [storeInsert, h1, ih h]

theorem acAdd_fresh (ac : List String) (k : String) (h : k ∉ ac) :
    acAdd ac k = ac ++ [k] := by
  simp [acAdd, h]

theorem mem_acAdd (ac : List String) (k a : String) :
    a ∈ acAdd ac k ↔ a ∈ ac ∨ a = k := by
  by_cases h : k ∈ ac
  · simp only [acAdd, if_pos h]
    constructor
    · exact Or.inl
    · rintro (ha | ha)
      · exact ha
      · subst ha; exact h
  · simp [acAdd, h]

theorem mem_acRemove (ac : List String) (k a : String) :
    a ∈ acRemove ac k ↔ a ∈ ac ∧ a ≠ k := by
  simp [acRemove, List.mem_filter]



theorem parseAutojoinAttr_eq_true_iff (o : Option String) :
    parseAutojoinAttr o = true ↔ o = some "1" ∨ o = some "true" := by
  cases o with
  | none => simp [parseAutojoinAttr]
  | some v =>
    by_cases h1 : v = "1" <;> by_cases h2 : v = "true" <;>
      simp_all [parseAutojoinAttr]

/-- C2: the encoder emits the minimize extension child iff the record's
tri-state flag is 1 or 2, with text "true" for 1 and "false" for 2, in the
Gajim extension namespace; an unset flag (0) yields no element at all. -/
theorem encode_minimize_iff_flag_set (b : Bookmark) :
    get_child_by_name_and_ns (encodeConference b) "minimize"
        STANZA_NS_EXT_GAJIM_BOOKMARKS =
      (if b.ext_gajim_minimize = 1 then
        some (Stanza.mk "minimize" (some STANZA_NS_EXT_GAJIM_BOOKMARKS) []
          (some "true") [])
      else if b.ext_gajim_minimize = 2 then
        some (Stanza.mk "minimize" (some STANZA_NS_EXT_GAJIM_BOOKMARKS) []
          (some "false") [])
      else none) := by
  obtain ⟨jid, nick, pw, nm, aj, flag⟩ := b
  cases nick <;> cases pw <;>
    by_cases h1 : flag = 1 <;> by_cases h2 : flag = 2 <;>
      simp_all [encodeConference, get_child_by_name_and_ns, Stanza.children,
        findChildNamedNs, Stanza.name, Stanza.ns]

/-- C8: a decoded conference entry's autojoin flag is true iff the autojoin
attribute is present with value exactly "1" or "true". -/
theorem decoded_autojoin_iff (c : Stanza) (b : Bookmark)
    (h : parseEntry c = .ok b) :
    (b.autojoin = true ↔
      (get_attribute c "autojoin" = some "1" ∨
       get_attribute c "autojoin" = some "true")) := by
  rw [parseEntry] at h
  split at h
  · exact absurd h (by simp)
  · split at h
    · exact absurd h (by simp)
    · split at h
      · exact absurd h (by simp)
      · rw [EntryResult.ok.injEq] at h
        subst h
        simp [parseAutojoinAttr_eq_true_iff]

/-- C9: every `bookmark_add` call, including one that fails because the jid
is already bookmarked, registers the jid's domain-part with
`muc_confserver_add`; the failing call returns FALSE and leaves the state
untouched. -/
theorem add_registers_confserver (st : BState) (jid : String)
    (nick password autojoin_str name : Option String) :
    ((bookmark_add st jid nick password autojoin_str name).confserverAdds =
      match jid_domainpart jid with
      | some d => [d]
      | none => []) ∧
    (storeContains st.bookmarks jid = true →
      (bookmark_add st jid nick password autojoin_str name).res = false ∧
      (bookmark_add st jid nick password autojoin_str name).state = st) := by
  by_cases h : storeContains st.bookmarks jid <;>
    simp [bookmark_add, h]



/-- C3: `bookmark_update` on an existing record replaces only the supplied
fields: a nickname-only update returns TRUE, rewrites the nickname and
leaves password, display name, autojoin and the vendor-minimize flag (and
every other record) untouched; in general a NULL argument never changes its
field and no update can touch the minimize flag. -/
theorem update_replaces_only_supplied_fields (st : BState) (jid : String)
    (b : Bookmark) (h : storeLookup st.bookmarks jid = some b) :
    (∀ n,
      (bookmark_update st jid (some n) none none none).1 = true ∧
      storeLookup (bookmark_update st jid (some n) none none none).2.bookmarks jid =
        some { b with nick := some n } ∧
      (∀ k, ¬ k = jid →
        storeLookup (bookmark_update st jid (some n) none none none).2.bookmarks k =
          storeLookup st.bookmarks k)) ∧
    (∀ nick password autojoin_str name b',
      storeLookup
          (bookmark_update st jid nick password autojoin_str name).2.bookmarks jid =
        some b' →
      b'.ext_gajim_minimize = b.ext_gajim_minimize ∧
      (nick = none → b'.nick = b.nick) ∧
      (password = none → b'.password = b.password) ∧
      (name = none → b'.name = b.name) ∧
      (autojoin_str = none → b'.autojoin = b.autojoin)) := by
  constructor
  · intro n
    refine ⟨by simp [bookmark_update, h], ?_, ?_⟩
    · simp [bookmark_update, h, storeLookup_insert]
    · intro k hk
      simp [bookmark_update, h, storeLookup_insert, Ne.symm hk]
  · intro nick password autojoin_str name b' h'
    simp [bookmark_update, h, storeLookup_insert] at h'
    subst h'
    refine ⟨rfl, ?_, ?_, ?_, ?_⟩ <;> rintro rfl <;> rfl



theorem add_preserves_nodupKeys (st : BState) (jid : String)
    (n p a nm : Option String) (h : nodupKeys st) :
    nodupKeys (bookmark_add st jid n p a nm).state := by
  by_cases hc : storeContains st.bookmarks jid
  · simpa [bookmark_add, hc] using h
  · have hfresh : storeLookup st.bookmarks jid = none := by
      rw [← Option.not_isSome_iff_eq_none]
      simpa [storeContains] using hc
    have hnem : jid ∉ storeKeys st.bookmarks :=
      (storeLookup_eq_none_iff _ _).mp hfresh
    simp only [bookmark_add, hc, if_false, Bool.false_eq_true, nodupKeys]
    rw [storeInsert_fresh _ _ _ hfresh]
    simp [storeKeys, List.nodup_append, nodupKeys] at h ⊢
    refine ⟨h, fun x hx => hnem ?_⟩
    simpa [storeKeys] using List.mem_map_of_mem Prod.fst hx

/-- C4: a sequence of `bookmark_add` calls never creates two records with
the same address; an add of an existing address returns FALSE and changes
nothing, while an add of a new address returns TRUE and inserts the
record. -/
theorem add_keeps_addresses_unique :
    (∀ args st, nodupKeys st → nodupKeys (runAdds st args)) ∧
    (∀ st jid n p a nm, storeContains st.bookmarks jid = true →
      (bookmark_add st jid n p a nm).res = false ∧
      (bookmark_add st jid n p a nm).state = st) ∧
    (∀ st jid n p a nm, storeContains st.bookmarks jid = false →
      (bookmark_add st jid n p a nm).res = true ∧
      storeLookup (bookmark_add st jid n p a nm).state.bookmarks jid =
        some (mkAddRecord jid n p a nm)) := by
  refine ⟨?_, ?_, ?_⟩
  · intro args
    induction args with
    | nil => intro st h; exact h
    | cons arg rest ih =>
      intro st h
      exact ih _ (add_preserves_nodupKeys st arg.jid arg.nick arg.password
        arg.autojoin_str arg.name h)
  · intro st jid n p a nm h
    simp [bookmark_add, h]
  · intro st jid n p a nm h
    simp [bookmark_add, h, storeLookup_insert, mkAddRecord]

/-- C10: in the fetch-result decode, a present minimize extension element
whose text content is NULL reaches the unguarded `strcmp(NULL, "true")`
(modelled as the `crash` outcome) instead of leaving the flag unset, while
an element with text decodes totally to 1/2/0 for "true"/"false"/other. -/
theorem minimize_text_null_dereference (c : Stanza) (j : String) (mst : Stanza)
    (hname : c.name = "conference")
    (hjid : get_attribute c "jid" = some j)
    (hmin : get_child_by_name_and_ns c "minimize" STANZA_NS_EXT_GAJIM_BOOKMARKS =
      some mst) :
    (mst.text = none → parseEntry c = .crash) ∧
    (∀ t, mst.text = some t →
      ∃ b, parseEntry c = .ok b ∧
        b.ext_gajim_minimize =
          (if t = "true" then 1 else if t = "false" then 2 else 0)) := by
  constructor
  · intro ht
    rw [parseEntry]
    simp [hname, hjid, parseMinimizeChild, hmin, ht]
  · intro t ht
    rw [parseEntry]
    simp [hname, hjid, parseMinimizeChild, hmin, ht]



theorem parseEntry_encodeConference (b : Bookmark)
    (hflag : b.ext_gajim_minimize ≤ 2) :
    parseEntry (encodeConference b) = .ok (nameAfterRoundtrip b) := by
  obtain ⟨jid, nick, pw, nm, aj, flag⟩ := b
  have hf : flag = 0 ∨ flag = 1 ∨ flag = 2 := by
    simp only at hflag
    omega
  rcases hf with hf | hf | hf <;> subst hf <;>
    cases nick <;> cases pw <;> cases nm <;> cases aj <;>
      cases hl : jid_localpart jid <;>
        simp [parseEntry, encodeConference, get_attribute, attrLookup,
          parseMinimizeChild, get_child_by_name_and_ns, get_child_by_name,
          findChildNamed, findChildNamedNs, Stanza.name, Stanza.ns,
          Stanza.attrs, Stanza.children, Stanza.text, parseAutojoinAttr,
          nameAfterRoundtrip, STANZA_NS_EXT_GAJIM_BOOKMARKS, hl]



theorem runEntries_encode (s : Store) (st : BState)
    (hflag : ∀ kv ∈ s, kv.2.ext_gajim_minimize ≤ 2)
    (hkey : ∀ kv ∈ s, kv.1 = kv.2.barejid)
    (hfreshS : ∀ kv ∈ s, storeLookup st.bookmarks kv.1 = none)
    (hfreshA : ∀ kv ∈ s, kv.1 ∉ st.bookmark_ac)
    (hnodup : (s.map Prod.fst).Nodup) :
    runEntries (s.map (fun kv => encodeConference kv.2)) st =
      some ⟨⟨st.bookmarks ++ s.map (fun kv => (kv.1, nameAfterRoundtrip kv.2)),
             st.bookmark_ac ++ s.map Prod.fst⟩,
            s.map (fun kv => nameAfterRoundtrip kv.2),
            (s.filter (fun kv => kv.2.autojoin)).map
              (fun kv => nameAfterRoundtrip kv.2),
            s.filterMap (fun kv => jid_domainpart kv.2.barejid)⟩ := by
  induction s generalizing st with
  | nil => simp [runEntries]
  | cons kv rest ih =>
    obtain ⟨k, b⟩ := kv
    have hk : k = b.barejid := hkey (k, b) (by simp)
    subst hk
    have hpe : parseEntry (encodeConference b) = .ok (nameAfterRoundtrip b) :=
      parseEntry_encodeConference b (hflag (b.barejid, b) (by simp))
    have hfs : storeLookup st.bookmarks b.barejid = none :=
      hfreshS (b.barejid, b) (by simp)
    have hfa : b.barejid ∉ st.bookmark_ac := hfreshA (b.barejid, b) (by simp)
    rw [List.map_cons, List.nodup_cons] at hnodup
    have hknotin : b.barejid ∉ rest.map Prod.fst := hnodup.1
    have hbj : (nameAfterRoundtrip b).barejid = b.barejid := rfl
    have haj : (nameAfterRoundtrip b).autojoin = b.autojoin := rfl
    simp only [List.map_cons, runEntries, hpe, hbj]
    rw [ih ⟨storeInsert st.bookmarks b.barejid (nameAfterRoundtrip b),
            acAdd st.bookmark_ac b.barejid⟩
        (fun kv hkv => hflag kv (by simp [hkv]))
        (fun kv hkv => hkey kv (by simp [hkv]))
        (fun kv hkv => by
          rw [storeLookup_insert]
          rw [if_neg (fun hh : b.barejid = kv.1 =>
            hknotin (by rw [hh]; exact List.mem_map_of_mem Prod.fst hkv))]
          exact hfreshS kv (by simp [hkv]))
        (fun kv hkv => by
          rw [mem_acAdd]
          rintro (hh | hh)
          · exact hfreshA kv (by simp [hkv]) hh
          · exact hknotin (by rw [← hh]; exact List.mem_map_of_mem Prod.fst hkv))
        hnodup.2]
    rw [storeInsert_fresh _ _ _ hfs, acAdd_fresh _ _ hfa]
    simp [List.filter_cons, haj, List.append_assoc]
    constructor
    · by_cases hb : b.autojoin <;> simp [hb, List.filter_cons, haj]
    · cases hd : jid_domainpart b.barejid <;> simp [List.filterMap_cons, hd]



/-- C1: encoding the full Store with `_send_bookmarks` and decoding the
resulting payload with `_bookmark_result_id_handler` (on the state freshly
reset by `bookmark_request`) reproduces the same records — same addresses,
nicknames, passwords, autojoin flags and vendor-minimize flags — with only
the display name rewritten: an absent display name becomes the address's
local-part, so a record whose address lacks a local-part is the one whose
derived display name is not materialized. -/
theorem encode_then_decode_roundtrip (st0 : BState) (s : Store)
    (hflag : ∀ kv ∈ s, kv.2.ext_gajim_minimize ≤ 2)
    (hkey : ∀ kv ∈ s, kv.1 = kv.2.barejid)
    (hnodup : (s.map Prod.fst).Nodup) :
    bookmark_result_handler (bookmark_request st0) (encodeIq s) =
      some ⟨⟨s.map (fun kv => (kv.1, nameAfterRoundtrip kv.2)), s.map Prod.fst⟩,
            s.map (fun kv => nameAfterRoundtrip kv.2),
            (s.filter (fun kv => kv.2.autojoin)).map
              (fun kv => nameAfterRoundtrip kv.2),
            s.filterMap (fun kv => jid_domainpart kv.2.barejid)⟩ := by
  have h := runEntries_encode s ⟨[], []⟩ hflag hkey
    (fun kv _ => rfl) (fun kv _ => by simp) hnodup
  calc bookmark_result_handler (bookmark_request st0) (encodeIq s)
      = runEntries (s.map (fun kv => encodeConference kv.2)) ⟨[], []⟩ := rfl
    _ = _ := by rw [h]; simp

theorem inv_insert_acAdd (st : BState) (k : String) (b : Bookmark)
    (hinv : keysMatchIndexInv st) :
    keysMatchIndexInv ⟨storeInsert st.bookmarks k b, acAdd st.bookmark_ac k⟩ := by
  intro a
  rw [mem_storeKeys_iff, storeLookup_insert, mem_acAdd]
  by_cases h : k = a
  · simp [h]
  · rw [if_neg h, ← mem_storeKeys_iff]
    constructor
    · intro ha
      exact Or.inl ((hinv a).mp ha)
    · rintro (ha | ha)
      · exact (hinv a).mpr ha
      · exact absurd ha.symm h

theorem runEntries_preserves_inv (cs : List Stanza) (st : BState)
    (tr : DecodeTrace) (h : runEntries cs st = some tr)
    (hinv : keysMatchIndexInv st) : keysMatchIndexInv tr.state := by
  induction cs generalizing st tr with
  | nil =>
    rw [runEntries] at h
    injection h with h
    subst h
    exact hinv
  | cons c cs ih =>
    rw [runEntries] at h
    cases hpe : parseEntry c with
    | skip => simp only [hpe] at h; exact ih _ _ h hinv
    | crash => simp only [hpe] at h; exact Option.noConfusion h
    | ok b =>
      simp only [hpe] at h
      cases hre : runEntries cs ⟨storeInsert st.bookmarks b.barejid b,
          acAdd st.bookmark_ac b.barejid⟩ with
      | none => simp only [hre] at h; exact Option.noConfusion h
      | some tr' =>
        simp only [hre] at h
        injection h with h
        subst h
        exact ih _ tr' hre (inv_insert_acAdd st b.barejid b hinv)

theorem handler_preserves_inv (st : BState) (stz : Stanza) (tr : DecodeTrace)
    (h : bookmark_result_handler st stz = some tr)
    (hinv : keysMatchIndexInv st) : keysMatchIndexInv tr.state := by
  rw [bookmark_result_handler] at h
  split at h
  · injection h with h; subst h; exact hinv
  · split at h
    · injection h with h; subst h; exact hinv
    · split at h
      · injection h with h; subst h; exact hinv
      · exact runEntries_preserves_inv _ _ _ h hinv

theorem applyOp_preserves_inv (st st1 : BState) (op : BOp)
    (h : applyOp st op = some st1) (hinv : keysMatchIndexInv st) :
    keysMatchIndexInv st1 := by
  cases op with
  | request =>
    injection h with h
    subst h
    intro a
    simp [bookmark_request, storeKeys]
  | add jid n p a' nm =>
    injection h with h
    subst h
    by_cases hc : storeContains st.bookmarks jid
    · simpa [bookmark_add, hc] using hinv
    · simp only [bookmark_add, hc, if_false, Bool.false_eq_true]
      exact inv_insert_acAdd st jid _ hinv
  | remove jid =>
    injection h with h
    subst h
    cases hl : storeLookup st.bookmarks jid with
    | none => simpa [bookmark_remove, hl] using hinv
    | some b =>
      simp only [bookmark_remove, hl]
      intro a
      rw [mem_storeKeys_iff, storeLookup_remove, mem_acRemove]
      by_cases hak : a = jid
      · simp [hak]
      · rw [if_neg hak, ← mem_storeKeys_iff]
        simp [hinv a, hak]
  | decode stz =>
    rw [applyOp] at h
    cases htr : bookmark_result_handler st stz with
    | none => rw [htr] at h; cases h
    | some tr =>
      rw [htr] at h
      simp only [Option.map_some'] at h
      injection h with h
      subst h
      exact handler_preserves_inv st stz tr htr hinv

/-- C5: after every sequence of `bookmark_request`, `bookmark_add`,
`bookmark_remove` and fetch-result decodes, starting from any state whose
Match Index key set equals the Store key set, the two key sets are still
identical. -/
theorem ops_preserve_index_consistency (ops : List BOp) (st st' : BState)
    (hinv : keysMatchIndexInv st) (h : runOps st ops = some st') :
    keysMatchIndexInv st' := by
  induction ops generalizing st with
  | nil =>
    rw [runOps] at h
    injection h with h
    subst h
    exact hinv
  | cons op ops ih =>
    rw [runOps] at h
    cases hop : applyOp st op with
    | none => rw [hop] at h; cases h
    | some st1 =>
      rw [hop] at h
      exact ih st1 (applyOp_preserves_inv st st1 op hop hinv) h



theorem runEntries_lookup (cs : List Stanza) (st : BState) (tr : DecodeTrace)
    (h : runEntries cs st = some tr) (a : String) :
    storeLookup tr.state.bookmarks a =
      (match lastDecodedWith tr.decoded a with
       | some x => some x
       | none => storeLookup st.bookmarks a) := by
  induction cs generalizing st tr with
  | nil =>
    rw [runEntries] at h
    injection h with h
    subst h
    simp [lastDecodedWith]
  | cons c cs ih =>
    rw [runEntries] at h
    cases hpe : parseEntry c with
    | skip => simp only [hpe] at h; exact ih _ _ h
    | crash => simp only [hpe] at h; exact Option.noConfusion h
    | ok b =>
      simp only [hpe] at h
      cases hre : runEntries cs ⟨storeInsert st.bookmarks b.barejid b,
          acAdd st.bookmark_ac b.barejid⟩ with
      | none => simp only [hre] at h; exact Option.noConfusion h
      | some tr' =>
        simp only [hre] at h
        injection h with h
        subst h
        have ihx := ih _ tr' hre
        simp only [lastDecodedWith]
        rw [ihx]
        cases hld : lastDecodedWith tr'.decoded a with
        | some x => simp [hld]
        | none =>
          simp only [hld]
          rw [storeLookup_insert]
          by_cases hba : b.barejid = a <;> simp [hba]

/-- C6 (amended): `bookmark_request` clears the Store and the Match Index,
and the decode handler only inserts; therefore after a request followed
directly by the decode of a response, the Store maps each address exactly to
the last record decoded for it from that response and holds nothing else.
The decode alone does not clear the table — see the counterexample
accompanying this claim. -/
theorem request_then_decode_replaces_store (st : BState) (stz : Stanza)
    (tr : DecodeTrace)
    (h : bookmark_result_handler (bookmark_request st) stz = some tr) :
    ∀ a, storeLookup tr.state.bookmarks a = lastDecodedWith tr.decoded a := by
  intro a
  have hcollapse : ∀ o : Option Bookmark,
      (match o with
       | some x => some x
       | none => (none : Option Bookmark)) = o := by
    intro o; cases o <;> rfl
  simp only [bookmark_request] at h
  rw [bookmark_result_handler] at h
  split at h
  · injection h with h; subst h
    simp [storeLookup, lastDecodedWith]
  · split at h
    · injection h with h; subst h
      simp [storeLookup, lastDecodedWith]
    · split at h
      · injection h with h; subst h
        simp [storeLookup, lastDecodedWith]
      · have hrl := runEntries_lookup _ _ _ h a
        rw [hrl]
        simp only [storeLookup]
        exact hcollapse _

/-- C7: as long as no entry reaches the minimize null dereference, the
decode loop never aborts: it skips storage children that are not conference
elements and conference entries without a jid attribute, and the decoded
records are exactly those of the well-formed entries. -/
theorem decode_skips_malformed_entries (cs : List Stanza) (st : BState)
    (h : ∀ c ∈ cs, parseEntry c ≠ .crash) :
    ∃ tr, runEntries cs st = some tr ∧ tr.decoded = cs.filterMap parseOk := by
  induction cs generalizing st with
  | nil => exact ⟨⟨st, [], [], []⟩, rfl, by simp⟩
  | cons c cs ih =>
    cases hpe : parseEntry c with
    | skip =>
      obtain ⟨tr, htr, hdec⟩ := ih st (fun c' hc' => h c' (by simp [hc']))
      refine ⟨tr, ?_, ?_⟩
      · rw [runEntries, hpe]
        exact htr
      · simp [List.filterMap_cons, parseOk, hpe, hdec]
    | crash => exact absurd hpe (h c (by simp))
    | ok b =>
      obtain ⟨tr, htr, hdec⟩ :=
        ih ⟨storeInsert st.bookmarks b.barejid b, acAdd st.bookmark_ac b.barejid⟩
          (fun c' hc' => h c' (by simp [hc']))
      refine ⟨⟨tr.state, b :: tr.decoded,
              (if b.autojoin then [b] else []) ++ tr.autojoinEvents,
              (match jid_domainpart b.barejid with
               | some d => [d]
               | none => []) ++ tr.confserverAdds⟩, ?_, ?_⟩
      · rw [runEntries, hpe]
        simp only [htr]
      · simp [List.filterMap_cons, parseOk, hpe, hdec]

/-! ## Witness and counterexample theorems -/

/-- Witness for C1 at a concrete two-record store. -/
theorem encode_then_decode_roundtrip_witness :
    (∀ kv ∈ sampleStoreC1, kv.2.ext_gajim_minimize ≤ 2) ∧
    (∀ kv ∈ sampleStoreC1, kv.1 = kv.2.barejid) ∧
    (sampleStoreC1.map Prod.fst).Nodup ∧
    bookmark_result_handler (bookmark_request ⟨[], []⟩) (encodeIq sampleStoreC1) =
      some ⟨⟨sampleStoreC1.map (fun kv => (kv.1, nameAfterRoundtrip kv.2)),
             sampleStoreC1.map Prod.fst⟩,
            sampleStoreC1.map (fun kv => nameAfterRoundtrip kv.2),
            (sampleStoreC1.filter (fun kv => kv.2.autojoin)).map
              (fun kv => nameAfterRoundtrip kv.2),
            sampleStoreC1.filterMap (fun kv => jid_domainpart kv.2.barejid)⟩ :=
  ⟨by decide, by decide, by decide,
   encode_then_decode_roundtrip ⟨[], []⟩ sampleStoreC1
     (by decide) (by decide) (by decide)⟩

/-- Witness for C3 at a concrete one-record state. -/
theorem update_replaces_only_supplied_fields_witness :
    storeLookup sampleStateC3.bookmarks "room@conf.example" = some sampleRecC3 ∧
    ((∀ n,
      (bookmark_update sampleStateC3 "room@conf.example" (some n) none none none).1
        = true ∧
      storeLookup (bookmark_update sampleStateC3 "room@conf.example"
          (some n) none none none).2.bookmarks "room@conf.example" =
        some { sampleRecC3 with nick := some n } ∧
      (∀ k, ¬ k = "room@conf.example" →
        storeLookup (bookmark_update sampleStateC3 "room@conf.example"
            (some n) none none none).2.bookmarks k =
          storeLookup sampleStateC3.bookmarks k)) ∧
    (∀ nick password autojoin_str name b',
      storeLookup (bookmark_update sampleStateC3 "room@conf.example"
          nick password autojoin_str name).2.bookmarks "room@conf.example" =
        some b' →
      b'.ext_gajim_minimize = sampleRecC3.ext_gajim_minimize ∧
      (nick = none → b'.nick = sampleRecC3.nick) ∧
      (password = none → b'.password = sampleRecC3.password) ∧
      (name = none → b'.name = sampleRecC3.name) ∧
      (autojoin_str = none → b'.autojoin = sampleRecC3.autojoin))) :=
  ⟨by decide,
   update_replaces_only_supplied_fields sampleStateC3 "room@conf.example"
     sampleRecC3 (by decide)⟩

/-- Witness for C4 at concrete add sequences. -/
theorem add_keeps_addresses_unique_witness :
    nodupKeys (⟨[], []⟩ : BState) ∧
    nodupKeys (runAdds ⟨[], []⟩ sampleArgsC4) ∧
    storeContains sampleStateC4.bookmarks "a@x" = true ∧
    ((bookmark_add sampleStateC4 "a@x" (some "n2") none none none).res = false ∧
     (bookmark_add sampleStateC4 "a@x" (some "n2") none none none).state =
       sampleStateC4) ∧
    storeContains (⟨[], []⟩ : BState).bookmarks "a@x" = false ∧
    ((bookmark_add ⟨[], []⟩ "a@x" none none none none).res = true ∧
     storeLookup (bookmark_add ⟨[], []⟩ "a@x" none none none none).state.bookmarks
       "a@x" = some (mkAddRecord "a@x" none none none none)) :=
  ⟨by unfold nodupKeys storeKeys; decide,
   add_keeps_addresses_unique.1 sampleArgsC4 ⟨[], []⟩
     (by unfold nodupKeys storeKeys; decide),
   by decide,
   add_keeps_addresses_unique.2.1 sampleStateC4 "a@x" (some "n2") none none none
     (by decide),
   by decide,
   add_keeps_addresses_unique.2.2 ⟨[], []⟩ "a@x" none none none none (by decide)⟩

/-- Witness for C5 on a concrete operation sequence. -/
theorem ops_preserve_index_consistency_witness :
    keysMatchIndexInv (⟨[], []⟩ : BState) ∧ keysMatchIndexInv sampleFinalC5 := by
  have h0 : keysMatchIndexInv (⟨[], []⟩ : BState) := by
    intro a
    simp [storeKeys]
  exact ⟨h0, ops_preserve_index_consistency sampleOpsC5 ⟨[], []⟩ sampleFinalC5 h0
    (by decide)⟩

/-- C6 counterexample: with a bookmark already in the Store, decoding a
response that contains only a different room leaves the old entry in the
Store, refuting that the decode clears the Store and that nothing present
before the response survives it. -/
theorem decode_alone_not_full_replace :
    (bookmark_result_handler samplePreC6 sampleIqC6).map
        (fun tr => storeLookup tr.state.bookmarks "old@conf") =
      some (some sampleOldC6) ∧
    (bookmark_result_handler samplePreC6 sampleIqC6).map
        (fun tr => tr.decoded.map Bookmark.barejid) = some ["new@conf"] := by
  decide

/-- Witness for the amended C6 on a concrete request-then-decode. -/
theorem request_then_decode_replaces_store_witness :
    bookmark_result_handler (bookmark_request samplePreC6) sampleIqC6 =
      some sampleTrC6 ∧
    ∀ a, storeLookup sampleTrC6.state.bookmarks a =
      lastDecodedWith sampleTrC6.decoded a :=
  ⟨by decide,
   request_then_decode_replaces_store samplePreC6 sampleIqC6 sampleTrC6 (by decide)⟩

/-- Witness for C7: one entry missing the jid attribute, one unknown child
and one valid entry decode to exactly the valid record. -/
theorem decode_skips_malformed_entries_witness :
    (∀ c ∈ sampleEntriesC7, parseEntry c ≠ .crash) ∧
    (∃ tr, runEntries sampleEntriesC7 ⟨[], []⟩ = some tr ∧
      tr.decoded = sampleEntriesC7.filterMap parseOk) :=
  ⟨by decide,
   decode_skips_malformed_entries sampleEntriesC7 ⟨[], []⟩ (by decide)⟩

/-- Witness for C8 on a concrete conference entry. -/
theorem decoded_autojoin_iff_witness :
    parseEntry sampleConfC8 = .ok sampleRecC8 ∧
    (sampleRecC8.autojoin = true ↔
      (get_attribute sampleConfC8 "autojoin" = some "1" ∨
       get_attribute sampleConfC8 "autojoin" = some "true")) :=
  ⟨by decide, decoded_autojoin_iff sampleConfC8 sampleRecC8 (by decide)⟩

/-- Witness for C9: a failing add still registers the domain. -/
theorem add_registers_confserver_witness :
    ((bookmark_add sampleStateC9 "room@conf" none none none none).confserverAdds =
      match jid_domainpart "room@conf" with
      | some d => [d]
      | none => []) ∧
    storeContains sampleStateC9.bookmarks "room@conf" = true ∧
    ((bookmark_add sampleStateC9 "room@conf" none none none none).res = false ∧
     (bookmark_add sampleStateC9 "room@conf" none none none none).state =
       sampleStateC9) :=
  ⟨(add_registers_confserver sampleStateC9 "room@conf" none none none none).1,
   by decide,
   (add_registers_confserver sampleStateC9 "room@conf" none none none none).2
     (by decide)⟩

/-- Witness for C10 on a concrete text-less minimize element. -/
theorem minimize_text_null_dereference_witness :
    sampleConfC10.name = "conference" ∧
    get_attribute sampleConfC10 "jid" = some "r@c" ∧
    get_child_by_name_and_ns sampleConfC10 "minimize"
        STANZA_NS_EXT_GAJIM_BOOKMARKS = some sampleMinC10 ∧
    ((sampleMinC10.text = none → parseEntry sampleConfC10 = .crash) ∧
     (∀ t, sampleMinC10.text = some t →
       ∃ b, parseEntry sampleConfC10 = .ok b ∧
         b.ext_gajim_minimize =
           (if t = "true" then 1 else if t = "false" then 2 else 0))) :=
  ⟨rfl, rfl, rfl,
   minimize_text_null_dereference sampleConfC10 "r@c" sampleMinC10 rfl rfl rfl⟩

end Profanity
